import Mathlib

/-!
Verification of the image-search example pipeline
(src/examples/image_search/example.ipynb): data model, ingestion,
schema initialization and the similarity-search query, shallowly
embedded in Lean 4. Embedding vectors are modelled as lists of
rationals (exact model of the float arrays), storage as the list of
persisted rows in insertion (primary-key) order, and the external
distance computation of the database engine in exact real arithmetic.
-/

/-- Embedding vectors: fixed-length numeric vectors, modelled as lists of
rationals (exact model of the float arrays used by the notebook). -/
abbrev Vec := List ℚ

/-- Source: CLIP_DIMENSION = 512 in the notebook. -/
def CLIP_DIMENSION : ℕ := 512

/-- Source: class ImageSearchTest(Base) with columns image_id (Integer) and
embedding (VectorType(CLIP_DIMENSION)). The auto-increment primary id is
represented by the position of the row in the storage list. -/
structure ImageSearchTest where
  image_id : ℕ
  embedding : Vec
  deriving DecidableEq, Repr

/-- Storage state: the rows of the image_search_test table, in insertion
(primary-key) order. -/
abbrev StorageState := List ImageSearchTest

/-- Modelled from the spec (4.1): the encoder can fail with InputError on
malformed input; the pretrained CLIP model itself is an external capability
and is not part of this repository. -/
inductive InputError where
  | corruptInput
  deriving DecidableEq, Repr

/-- Modelled from the spec (7): StorageError, here the dimension-mismatch
case enforced by the vector column type, whose implementation lives in the
tidb_vector package outside src/. -/
inductive StorageError where
  | dimensionMismatch
  deriving DecidableEq, Repr

/-- Errors surfaced by the ingestion pipeline (spec 4.3). -/
inductive IngestError where
  | encoding (e : InputError)
  | storage (e : StorageError)
  deriving DecidableEq, Repr

/-- Modelled from the spec (4.4): InvalidK for K at most 0; the notebook
itself never validates K (its limit is the literal 5). -/
inductive QueryError where
  | invalidK
  deriving DecidableEq, Repr

/-- Source: encode_images_to_embeddings(images) returns one embedding per
input image, order preserved. The per-item encoder enc is the external
model capability; a failure on any item fails the whole batch call. -/
def encodeBatch {β : Type} (enc : β → Except InputError Vec) :
    List β → Except InputError (List Vec)
  | [] => Except.ok []
  | it :: rest =>
    match enc it with
    | Except.error e => Except.error e
    | Except.ok v =>
      match encodeBatch enc rest with
      | Except.error e => Except.error e
      | Except.ok vs => Except.ok (v :: vs)

/-- Source: for i, embedding in enumerate(images_embedding):
objects.append(ImageSearchTest(image_id=i, embedding=embedding)).
The auxiliary index i starts at n. -/
def buildObjectsAux (n : ℕ) : List Vec → List ImageSearchTest
  | [] => []
  | v :: vs => ⟨n, v⟩ :: buildObjectsAux (n + 1) vs

/-- Source: the objects list built by the ingestion cell, enumeration
starting at 0. -/
def buildObjects (vecs : List Vec) : List ImageSearchTest :=
  buildObjectsAux 0 vecs

/-- Source: session.add_all(objects); session.commit(). The commit is
atomic: it either appends every row or fails. The dimension check models
the VectorType(dim) column constraint (dimension mismatch is a
StorageError per spec 7; the enforcing code lives outside src/). -/
def add_all (dim : ℕ) (s : StorageState) (recs : List ImageSearchTest) :
    Except StorageError StorageState :=
  if ∀ r ∈ recs, r.embedding.length = dim then Except.ok (s ++ recs)
  else Except.error StorageError.dimensionMismatch

/-- Source: the ingestion cell. Encode the batch, build one row per item
with image_id from enumeration order, then commit all rows in one
transaction. On any error the storage state is unchanged (the error
result carries no new state). -/
def ingest {β : Type} (enc : β → Except InputError Vec) (dim : ℕ)
    (s : StorageState) (items : List β) : Except IngestError StorageState :=
  match encodeBatch enc items with
  | Except.error e => Except.error (IngestError.encoding e)
  | Except.ok vecs =>
    match add_all dim s (buildObjects vecs) with
    | Except.error e => Except.error (IngestError.storage e)
    | Except.ok s2 => Except.ok s2

/-- Source: Base.metadata.drop_all(engine). Drops the table whatever its
content; none models an absent table. -/
def drop_all (_db : Option StorageState) : Option StorageState := none

/-- Source: Base.metadata.create_all(engine). Creates the table empty when
it is absent and leaves an existing table untouched. -/
def create_all (db : Option StorageState) : Option StorageState :=
  match db with
  | none => some []
  | some s => some s

/-- Source: the schema-initialization cell runs drop_all then create_all. -/
def initSchema (db : Option StorageState) : Option StorageState :=
  create_all (drop_all db)

/-- Ordering of result pairs by their distance component, the order used by
ORDER BY distance ASC. -/
def byDist (α : Type) [LinearOrder α] (p q : ImageSearchTest × α) : Prop :=
  p.2 ≤ q.2

instance (α : Type) [LinearOrder α] : DecidableRel (byDist α) :=
  fun p q => inferInstanceAs (Decidable (p.2 ≤ q.2))

instance (α : Type) [LinearOrder α] : IsTotal (ImageSearchTest × α) (byDist α) :=
  ⟨fun p q => le_total p.2 q.2⟩

instance (α : Type) [LinearOrder α] : IsTrans (ImageSearchTest × α) (byDist α) :=
  ⟨fun _ _ _ h h2 => le_trans h h2⟩

/-- Source: session.query(ImageSearchTest, embedding.cosine_distance(qv)
.label(distance)): one (row, distance) pair per stored row, in storage
order. The distance metric is the capability delegated to the engine. -/
def distancePairs {α : Type} (dist : Vec → Vec → α) (s : StorageState)
    (q : Vec) : List (ImageSearchTest × α) :=
  s.map fun r => (r, dist r.embedding q)

/-- Source: order_by(asc(distance)): the pairs sorted ascending by
distance, ties kept in storage (primary-key) order by stability. -/
def rankedResults {α : Type} [LinearOrder α] (dist : Vec → Vec → α)
    (s : StorageState) (q : Vec) : List (ImageSearchTest × α) :=
  List.insertionSort (byDist α) (distancePairs dist s q)

/-- Source: order_by(asc(distance)).limit(k).all(); the notebook
instantiates k with the literal 5. -/
def queryPipeline {α : Type} [LinearOrder α] (dist : Vec → Vec → α)
    (s : StorageState) (q : Vec) (k : ℕ) : List (ImageSearchTest × α) :=
  (rankedResults dist s q).take k

/-- The query cell as a state transition: it returns the ranked results
and the storage state it leaves behind (the query is read-only). -/
def queryStep {α : Type} [LinearOrder α] (dist : Vec → Vec → α)
    (s : StorageState) (q : Vec) (k : ℕ) :
    List (ImageSearchTest × α) × StorageState :=
  (queryPipeline dist s q k, s)

/-- Modelled from the spec (4.4): fails with InvalidK if K is at most 0;
the notebook passes the literal 5 and has no such check in src/. -/
def queryPipelineChecked {α : Type} [LinearOrder α] (dist : Vec → Vec → α)
    (s : StorageState) (q : Vec) (k : ℤ) :
    Except QueryError (List (ImageSearchTest × α)) :=
  if k ≤ 0 then Except.error QueryError.invalidK
  else Except.ok (queryPipeline dist s q k.toNat)

/-- Dot product of two vectors, truncating to the shorter length. -/
def dot (a b : List ℚ) : ℚ := (List.zipWith (fun x y => x * y) a b).sum

/-- Modelled from the spec (glossary: cosine distance; the computation is
delegated to the TiDB engine via the tidb_vector package, outside src/):
one minus the cosine of the angle between the vectors, in exact real
arithmetic (division by a zero norm yields 0 under the Lean convention). -/
noncomputable def cosineDistance (a b : Vec) : ℝ :=
  1 - (dot a b : ℝ) / (Real.sqrt (dot a a) * Real.sqrt (dot b b))

/-- Source: the search cell, with the cosine distance of the embedding
column against the query embedding and the literal limit 5. The query
embedding qe stands for encode_text_to_embedding(query_text). -/
noncomputable def searchCellResults (qe : Vec) (s : StorageState) :
    List (ImageSearchTest × ℝ) :=
  queryPipeline cosineDistance s qe 5

/-- Storage states reachable from schema initialization by runs of the
ingestion pipeline (with any encoder and any item batches), at a fixed
configured dimension. -/
inductive Reachable (dim : ℕ) : StorageState → Prop where
  | init : Reachable dim []
  | step {β : Type} (enc : β → Except InputError Vec) (items : List β)
      (s s2 : StorageState) : Reachable dim s →
      ingest enc dim s items = Except.ok s2 → Reachable dim s2

/-- Successful batch encoding returns one vector per item, order
preserved: the i-th output vector is the encoding of the i-th item. -/
theorem encodeBatch_ok_spec {β : Type} (enc : β → Except InputError Vec)
    (items : List β) (vecs : List Vec)
    (h : encodeBatch enc items = Except.ok vecs) :
    vecs.length = items.length ∧
      ∀ i (hi : i < items.length) (hv : i < vecs.length),
        enc (items.get ⟨i, hi⟩) = Except.ok (vecs.get ⟨i, hv⟩) := by
  induction items generalizing vecs with
  | nil =>
    simp only [encodeBatch, Except.ok.injEq] at h
    subst h
    exact ⟨rfl, fun i hi _ => absurd hi (Nat.not_lt_zero i)⟩
  | cons it rest ih =>
    simp only [encodeBatch] at h
    cases henc : enc it with
    | error e => rw [henc] at h; exact absurd h (by simp)
    | ok v =>
      rw [henc] at h
      cases hrec : encodeBatch enc rest with
      | error e => rw [hrec] at h; exact absurd h (by simp)
      | ok vs =>
        rw [hrec] at h
        simp only [Except.ok.injEq] at h
        subst h
        obtain ⟨hlen, hget⟩ := ih vs hrec
        refine ⟨by simp [hlen], ?_⟩
        intro i hi hv
        cases i with
        | zero => simpa using henc
        | succ n =>
          simpa using hget n (Nat.lt_of_succ_lt_succ hi) (Nat.lt_of_succ_lt_succ hv)

/-- A batch encoding whose result is ok encoded every member of the
batch successfully. -/
theorem encodeBatch_mem {β : Type} (enc : β → Except InputError Vec)
    (items : List β) (vecs : List Vec)
    (h : encodeBatch enc items = Except.ok vecs) (v : Vec) (hv : v ∈ vecs) :
    ∃ it ∈ items, enc it = Except.ok v := by
  induction items generalizing vecs with
  | nil =>
    simp only [encodeBatch, Except.ok.injEq] at h
    subst h
    cases hv
  | cons it rest ih =>
    simp only [encodeBatch] at h
    cases henc : enc it with
    | error e => rw [henc] at h; exact absurd h (by simp)
    | ok w =>
      rw [henc] at h
      cases hrec : encodeBatch enc rest with
      | error e => rw [hrec] at h; exact absurd h (by simp)
      | ok vs =>
        rw [hrec] at h
        simp only [Except.ok.injEq] at h
        subst h
        rcases List.mem_cons.mp hv with rfl | hv2
        · exact ⟨it, List.mem_cons_self it rest, henc⟩
        · obtain ⟨it2, hmem, henc2⟩ := ih vs hrec hv2
          exact ⟨it2, List.mem_cons_of_mem it hmem, henc2⟩

/-- If any item of the batch fails to encode, the whole batch call
fails. -/
theorem encodeBatch_error_of_item {β : Type} (enc : β → Except InputError Vec)
    (items : List β) (it : β) (hmem : it ∈ items) (e : InputError)
    (he : enc it = Except.error e) :
    ∃ e2, encodeBatch enc items = Except.error e2 := by
  induction items with
  | nil => cases hmem
  | cons a rest ih =>
    simp only [encodeBatch]
    cases henc : enc a with
    | error e2 => exact ⟨e2, rfl⟩
    | ok v =>
      rcases List.mem_cons.mp hmem with rfl | hmem2
      · rw [henc] at he; exact absurd he (by simp)
      · obtain ⟨e2, h2⟩ := ih hmem2
        rw [h2]
        exact ⟨e2, rfl⟩

theorem buildObjectsAux_length (n : ℕ) (vecs : List Vec) :
    (buildObjectsAux n vecs).length = vecs.length := by
  induction vecs generalizing n with
  | nil => rfl
  | cons v vs ih => simp [buildObjectsAux, ih]

theorem buildObjectsAux_get (n : ℕ) (vecs : List Vec) :
    ∀ i (hb : i < (buildObjectsAux n vecs).length) (hv : i < vecs.length),
      (buildObjectsAux n vecs).get ⟨i, hb⟩ = ⟨n + i, vecs.get ⟨i, hv⟩⟩ := by
  induction vecs generalizing n with
  | nil => intro i hb hv; cases hv
  | cons v vs ih =>
    intro i hb hv
    cases i with
    | zero => simp [buildObjectsAux]
    | succ m =>
      have hb2 : m < (buildObjectsAux (n + 1) vs).length := by
        simpa [buildObjectsAux] using hb
      have := ih (n + 1) m hb2 (Nat.lt_of_succ_lt_succ hv)
      simp only [buildObjectsAux, List.get_cons_succ]
      rw [this]
      congr 1
      omega

/-- Each built row has an image_id in the enumeration interval and an
embedding taken from the encoded vectors. -/
theorem buildObjectsAux_mem (n : ℕ) (vecs : List Vec) (r : ImageSearchTest)
    (hr : r ∈ buildObjectsAux n vecs) :
    n ≤ r.image_id ∧ r.image_id < n + vecs.length ∧ r.embedding ∈ vecs := by
  induction vecs generalizing n with
  | nil => cases hr
  | cons v vs ih =>
    rcases List.mem_cons.mp hr with rfl | h2
    · refine ⟨le_refl n, by simp, by simp⟩
    · obtain ⟨h1, hlt, hm⟩ := ih (n + 1) h2
      exact ⟨by omega, by simp; omega, List.mem_cons_of_mem v hm⟩

/-- Characterization of a successful ingestion run: the batch encoded
successfully, every built row passed the dimension check, and the new
state is the old state with every row of the batch appended. -/
theorem ingest_ok_spec {β : Type} (enc : β → Except InputError Vec) (dim : ℕ)
    (s : StorageState) (items : List β) (s2 : StorageState)
    (h : ingest enc dim s items = Except.ok s2) :
    ∃ vecs, encodeBatch enc items = Except.ok vecs ∧
      (∀ r ∈ buildObjects vecs, r.embedding.length = dim) ∧
      s2 = s ++ buildObjects vecs := by
  unfold ingest at h
  cases hb : encodeBatch enc items with
  | error e => rw [hb] at h; exact absurd h (by simp)
  | ok vecs =>
    rw [hb] at h
    unfold add_all at h
    dsimp only at h
    by_cases hall : ∀ r ∈ buildObjects vecs, r.embedding.length = dim
    · rw [if_pos hall] at h
      dsimp only at h
      simp only [Except.ok.injEq] at h
      exact ⟨vecs, rfl, hall, h.symm⟩
    · rw [if_neg hall] at h
      exact absurd h (by simp)

/-- Results returned by the query pipeline are rows of storage paired
with their distance to the query vector. -/
theorem queryPipeline_mem {α : Type} [LinearOrder α] (dist : Vec → Vec → α)
    (s : StorageState) (q : Vec) (k : ℕ) (p : ImageSearchTest × α)
    (hp : p ∈ queryPipeline dist s q k) :
    p.1 ∈ s ∧ p.2 = dist p.1.embedding q := by
  have h1 : p ∈ rankedResults dist s q := List.mem_of_mem_take hp
  have h2 : p ∈ distancePairs dist s q := by
    simpa [rankedResults] using h1
  obtain ⟨r, hr, hpr⟩ := List.mem_map.mp h2
  cases hpr
  exact ⟨hr, rfl⟩

theorem rankedResults_sorted {α : Type} [LinearOrder α] (dist : Vec → Vec → α)
    (s : StorageState) (q : Vec) :
    List.Sorted (byDist α) (rankedResults dist s q) :=
  List.sorted_insertionSort (byDist α) (distancePairs dist s q)

theorem rankedResults_perm {α : Type} [LinearOrder α] (dist : Vec → Vec → α)
    (s : StorageState) (q : Vec) :
    List.Perm (rankedResults dist s q) (distancePairs dist s q) :=
  List.perm_insertionSort (byDist α) (distancePairs dist s q)

theorem rankedResults_length {α : Type} [LinearOrder α] (dist : Vec → Vec → α)
    (s : StorageState) (q : Vec) :
    (rankedResults dist s q).length = s.length := by
  rw [rankedResults, List.length_insertionSort, distancePairs, List.length_map]

/-- C7: the schema initializer is a destructive reset: whatever the prior
state of storage (absent table or a table with any rows), after drop_all
followed by create_all the table exists and holds zero rows. -/
theorem initSchema_reset : ∀ db : Option StorageState, initSchema db = some [] :=
  fun _ => rfl

/-- C8: idempotence of the read path: running the query twice with the
same query vector and the same K, threading the storage state through,
yields the same ranked sequence twice and leaves storage unchanged. -/
theorem queryStep_idempotent {α : Type} [LinearOrder α]
    (dist : Vec → Vec → α) (s : StorageState) (q : Vec) (k : ℕ) :
    (queryStep dist (queryStep dist s q k).2 q k).1 = (queryStep dist s q k).1
      ∧ (queryStep dist (queryStep dist s q k).2 q k).2 = s :=
  ⟨rfl, rfl⟩

/-- C9: the search cell of the notebook hard-codes limit(5): whatever the
storage state and the query embedding, at most 5 results come back. -/
theorem searchCell_at_most_five (qe : Vec) (s : StorageState) :
    (searchCellResults qe s).length ≤ 5 := by
  simp [searchCellResults, queryPipeline]

/-- C1: for every storage state, query vector and requested K, and for
any distance metric of the engine, the query pipeline returns the
(record, distance) pairs sorted ascending by distance, truncated to K
(the notebook instantiates K with 5), each pair carrying a stored row
and its distance to the query vector. -/
theorem queryPipeline_ranked {α : Type} [LinearOrder α] (dist : Vec → Vec → α)
    (s : StorageState) (q : Vec) (k : ℕ) :
    List.Sorted (byDist α) (queryPipeline dist s q k)
      ∧ (queryPipeline dist s q k).length = min k s.length
      ∧ ∀ p ∈ queryPipeline dist s q k, p.1 ∈ s ∧ p.2 = dist p.1.embedding q := by
  refine ⟨?_, ?_, fun p hp => queryPipeline_mem dist s q k p hp⟩
  · exact List.Pairwise.sublist (List.take_sublist k _) (rankedResults_sorted dist s q)
  · rw [queryPipeline, List.length_take, rankedResults_length]

/-- C1 witness: the ranking property at a concrete two-row store and a
concrete metric. -/
theorem queryPipeline_ranked_witness :
    List.Sorted (byDist ℚ) (queryPipeline dot [⟨0, [1]⟩, ⟨1, [2]⟩] [1] 2)
      ∧ (queryPipeline dot [⟨0, [1]⟩, ⟨1, [2]⟩] [1] 2).length
          = min 2 ([⟨0, [1]⟩, ⟨1, [2]⟩] : StorageState).length
      ∧ ∀ p ∈ queryPipeline dot [⟨0, [1]⟩, ⟨1, [2]⟩] [1] 2,
          p.1 ∈ ([⟨0, [1]⟩, ⟨1, [2]⟩] : StorageState) ∧ p.2 = dot p.1.embedding [1] :=
  queryPipeline_ranked dot [⟨0, [1]⟩, ⟨1, [2]⟩] [1] 2

/-- C2: the ingestion pipeline is atomic. A successful run appends every
record built from the batch (one per item) to storage; if any single item
of the batch fails to encode, the run surfaces an encoding error, and an
erroneous run carries no new state: storage is left exactly as it was. -/
theorem ingest_atomic {β : Type} (enc : β → Except InputError Vec) (dim : ℕ)
    (s : StorageState) (items : List β) :
    (∀ s2, ingest enc dim s items = Except.ok s2 →
        ∃ vecs, encodeBatch enc items = Except.ok vecs ∧
          s2 = s ++ buildObjects vecs ∧ (buildObjects vecs).length = items.length)
      ∧ ∀ it ∈ items, ∀ e, enc it = Except.error e →
          ∃ e2, ingest enc dim s items = Except.error (IngestError.encoding e2) := by
  constructor
  · intro s2 h
    obtain ⟨vecs, hb, _, hs2⟩ := ingest_ok_spec enc dim s items s2 h
    obtain ⟨hlen, _⟩ := encodeBatch_ok_spec enc items vecs hb
    exact ⟨vecs, hb, hs2, by rw [buildObjects, buildObjectsAux_length, hlen]⟩
  · intro it hmem e he
    obtain ⟨e2, h2⟩ := encodeBatch_error_of_item enc items it hmem e he
    refine ⟨e2, ?_⟩
    unfold ingest
    rw [h2]

/-- C2 witness: a batch whose single item fails to encode aborts the
whole write with an encoding error. -/
theorem ingest_atomic_witness :
    ∃ e2, ingest (fun _ : Unit => Except.error InputError.corruptInput) 512 [] [()]
        = Except.error (IngestError.encoding e2) :=
  (ingest_atomic (fun _ : Unit => Except.error InputError.corruptInput) 512 [] [()]).2
    () (by simp) InputError.corruptInput rfl

/-- C3: with an encoder meeting its contract (every vector it produces
has the configured dimension, 512 for CLIP), every vector of every
successful batch encoding has length 512, and every row of every storage
state reachable by ingestion runs from schema initialization carries an
embedding of length exactly 512. -/
theorem dimension_invariant {β : Type} (enc : β → Except InputError Vec)
    (hc : ∀ it v, enc it = Except.ok v → v.length = CLIP_DIMENSION) :
    (∀ (items : List β) (vecs : List Vec),
        encodeBatch enc items = Except.ok vecs →
          ∀ v ∈ vecs, v.length = CLIP_DIMENSION)
      ∧ ∀ s, Reachable CLIP_DIMENSION s →
          ∀ r ∈ s, r.embedding.length = CLIP_DIMENSION := by
  constructor
  · intro items vecs h v hv
    obtain ⟨it, _, henc⟩ := encodeBatch_mem enc items vecs h v hv
    exact hc it v henc
  · intro s hs
    induction hs with
    | init => intro r hr; cases hr
    | step enc2 items2 t t2 _ hok ih =>
      obtain ⟨vecs, _, hall, rfl⟩ := ingest_ok_spec enc2 CLIP_DIMENSION t items2 t2 hok
      intro r hr
      rcases List.mem_append.mp hr with h1 | h2
      · exact ih r h1
      · exact hall r h2

/-- C3 witness: the dimension invariant instantiated with a concrete
contract-satisfying encoder. -/
theorem dimension_invariant_witness :
    (∀ (items : List Unit) (vecs : List Vec),
        encodeBatch (fun _ => Except.ok (List.replicate CLIP_DIMENSION 0)) items
            = Except.ok vecs →
          ∀ v ∈ vecs, v.length = CLIP_DIMENSION)
      ∧ ∀ s, Reachable CLIP_DIMENSION s →
          ∀ r ∈ s, r.embedding.length = CLIP_DIMENSION :=
  dimension_invariant (fun _ : Unit => Except.ok (List.replicate CLIP_DIMENSION 0))
    (fun _ v h => by
      injection h with h2
      rw [← h2]
      simp)

/-- C6: ingestion constructs exactly one EmbeddingRecord per input item:
the encoder returns one vector per input with order preserved (the i-th
vector encodes the i-th item), and the i-th built row pairs the i-th
vector with image_id i, the identifier assigned by enumeration order. -/
theorem ingest_one_record_per_item {β : Type} (enc : β → Except InputError Vec)
    (items : List β) (vecs : List Vec)
    (h : encodeBatch enc items = Except.ok vecs) :
    vecs.length = items.length
      ∧ (∀ i (hi : i < items.length) (hv : i < vecs.length),
          enc (items.get ⟨i, hi⟩) = Except.ok (vecs.get ⟨i, hv⟩))
      ∧ (buildObjects vecs).length = items.length
      ∧ ∀ i (hb : i < (buildObjects vecs).length) (hv : i < vecs.length),
          (buildObjects vecs).get ⟨i, hb⟩ = ⟨i, vecs.get ⟨i, hv⟩⟩ := by
  obtain ⟨hlen, hget⟩ := encodeBatch_ok_spec enc items vecs h
  refine ⟨hlen, hget, by rw [buildObjects, buildObjectsAux_length, hlen], ?_⟩
  intro i hb hv
  have := buildObjectsAux_get 0 vecs i (by rwa [buildObjects] at hb) hv
  simpa [buildObjects] using this

/-- C6 witness: one record per item with enumerated identifiers at a
concrete two-item batch. -/
theorem ingest_one_record_per_item_witness :
    ([[0], [7]] : List Vec).length = ([0, 7] : List ℚ).length
      ∧ (∀ i (hi : i < ([0, 7] : List ℚ).length) (hv : i < ([[0], [7]] : List Vec).length),
          (fun x : ℚ => Except.ok (ε := InputError) [x]) (([0, 7] : List ℚ).get ⟨i, hi⟩)
            = Except.ok (([[0], [7]] : List Vec).get ⟨i, hv⟩))
      ∧ (buildObjects [[0], [7]]).length = ([0, 7] : List ℚ).length
      ∧ ∀ i (hb : i < (buildObjects [[0], [7]]).length) (hv : i < ([[0], [7]] : List Vec).length),
          (buildObjects [[0], [7]]).get ⟨i, hb⟩ = ⟨i, ([[0], [7]] : List Vec).get ⟨i, hv⟩⟩ :=
  ingest_one_record_per_item (fun x : ℚ => Except.ok [x]) [0, 7] [[0], [7]] rfl

/-- C10: when storage was populated by one ingestion run from the
in-memory image list (starting from the empty table the initializer
leaves), every row a query returns has image_id strictly below the
length of that list, so indexing the list with it stays in bounds. -/
theorem display_index_in_bounds {α : Type} [LinearOrder α] {β : Type}
    (dist : Vec → Vec → α) (enc : β → Except InputError Vec) (dim : ℕ)
    (items : List β) (s : StorageState)
    (h : ingest enc dim [] items = Except.ok s) (q : Vec) (k : ℕ) :
    ∀ p ∈ queryPipeline dist s q k, p.1.image_id < items.length := by
  obtain ⟨vecs, hb, _, rfl⟩ := ingest_ok_spec enc dim [] items s h
  obtain ⟨hlen, _⟩ := encodeBatch_ok_spec enc items vecs hb
  intro p hp
  have hmem : p.1 ∈ [] ++ buildObjects vecs :=
    (queryPipeline_mem dist ([] ++ buildObjects vecs) q k p hp).1
  have hbound := buildObjectsAux_mem 0 vecs p.1 (by simpa [buildObjects] using hmem)
  omega

/-- C10 witness: index safety at a concrete one-image ingestion run,
instantiated at the one pair the query returns. -/
theorem display_index_in_bounds_witness :
    (⟨0, [1]⟩ : ImageSearchTest).image_id < ([()] : List Unit).length :=
  display_index_in_bounds dot (fun _ : Unit => Except.ok [1]) 1 [()] [⟨0, [1]⟩] rfl [1] 5
    (⟨0, [1]⟩, dot [1] [1])
    (by simp [queryPipeline, rankedResults, distancePairs, List.insertionSort,
      List.orderedInsert])

/-- C4: the query pipeline with a caller-supplied K validates it as the
spec requires: any K at most 0 fails with InvalidK, and any K exceeding
the number of stored rows returns all stored rows, ranked (the result is
sorted by distance and its rows are a permutation of storage). -/
theorem queryPipelineChecked_boundary {α : Type} [LinearOrder α]
    (dist : Vec → Vec → α) (s : StorageState) (q : Vec) :
    (∀ k : ℤ, k ≤ 0 →
        queryPipelineChecked dist s q k = Except.error QueryError.invalidK)
      ∧ ∀ k : ℤ, (s.length : ℤ) < k →
          queryPipelineChecked dist s q k = Except.ok (rankedResults dist s q)
            ∧ List.Perm ((rankedResults dist s q).map Prod.fst) s
            ∧ List.Sorted (byDist α) (rankedResults dist s q) := by
  constructor
  · intro k hk
    rw [queryPipelineChecked, if_pos hk]
  · intro k hk
    have hk0 : ¬ k ≤ 0 := by omega
    have htake : s.length ≤ k.toNat := by omega
    refine ⟨?_, ?_, rankedResults_sorted dist s q⟩
    · rw [queryPipelineChecked, if_neg hk0, queryPipeline,
        List.take_of_length_le (by rw [rankedResults_length]; exact htake)]
    · have h1 := List.Perm.map Prod.fst (rankedResults_perm dist s q)
      have h2 : (distancePairs dist s q).map Prod.fst = s := by
        rw [distancePairs, List.map_map]
        exact List.map_id s
      rwa [h2] at h1

theorem dot_cons (x : ℚ) (xs : List ℚ) (y : ℚ) (ys : List ℚ) :
    dot (x :: xs) (y :: ys) = x * y + dot xs ys := by
  simp [dot]

theorem dot_self_nonneg (a : List ℚ) : 0 ≤ dot a a := by
  induction a with
  | nil => simp [dot]
  | cons x xs ih =>
    rw [dot_cons]
    nlinarith [mul_self_nonneg x]

/-- Cauchy-Schwarz for the truncating dot product on rational lists. -/
theorem dot_sq_le (a : List ℚ) : ∀ b : List ℚ, dot a b ^ 2 ≤ dot a a * dot b b := by
  induction a with
  | nil => intro b; simp [dot]
  | cons x xs ih =>
    intro b
    cases b with
    | nil =>
      have := dot_self_nonneg (x :: xs)
      simp [dot]
    | cons y ys =>
      have hA := dot_self_nonneg xs
      have hB := dot_self_nonneg ys
      have hd := ih ys
      rw [dot_cons, dot_cons, dot_cons]
      rcases eq_or_lt_of_le hB with hB0 | hBpos
      · have hd0 : dot xs ys ^ 2 ≤ 0 := by rw [← hB0] at hd; simpa using hd
        have hzero : dot xs ys = 0 := by nlinarith [sq_nonneg (dot xs ys)]
        rw [hzero, ← hB0]
        nlinarith [mul_self_nonneg x, mul_self_nonneg y, hA, sq_nonneg (x * y)]
      · have h1 : 0 ≤ dot xs xs * dot ys ys - dot xs ys ^ 2 := by nlinarith [hd]
        nlinarith [sq_nonneg (x * dot ys ys - y * dot xs ys),
          mul_nonneg (sq_nonneg y) h1, mul_nonneg (le_of_lt hBpos) h1, hBpos]

/-- Cosine distance is nonnegative (the cosine of an angle is at most
1), whatever the two vectors. -/
theorem cosineDistance_nonneg (a b : Vec) : 0 ≤ cosineDistance a b := by
  rw [cosineDistance]
  have hden : (0:ℝ) ≤ Real.sqrt (dot a a) * Real.sqrt (dot b b) :=
    mul_nonneg (Real.sqrt_nonneg _) (Real.sqrt_nonneg _)
  rcases eq_or_lt_of_le hden with h0 | hpos
  · rw [← h0, div_zero]
    norm_num
  · have hle : (dot a b : ℝ) ≤ Real.sqrt (dot a a) * Real.sqrt (dot b b) := by
      have h1 : (dot a b : ℝ) ≤ |(dot a b : ℝ)| := le_abs_self _
      have h2 : |(dot a b : ℝ)| = Real.sqrt ((dot a b : ℝ) ^ 2) :=
        (Real.sqrt_sq_eq_abs _).symm
      have h3 : Real.sqrt ((dot a b : ℝ) ^ 2)
          ≤ Real.sqrt ((dot a a : ℝ) * (dot b b : ℝ)) := by
        apply Real.sqrt_le_sqrt
        have := dot_sq_le a b
        exact_mod_cast this
      have h4 : Real.sqrt ((dot a a : ℝ) * (dot b b : ℝ))
          = Real.sqrt (dot a a) * Real.sqrt (dot b b) :=
        Real.sqrt_mul (by exact_mod_cast dot_self_nonneg a) _
      calc (dot a b : ℝ) ≤ |(dot a b : ℝ)| := h1
        _ = Real.sqrt ((dot a b : ℝ) ^ 2) := h2
        _ ≤ Real.sqrt ((dot a a : ℝ) * (dot b b : ℝ)) := h3
        _ = Real.sqrt (dot a a) * Real.sqrt (dot b b) := h4
    have hratio : (dot a b : ℝ) / (Real.sqrt (dot a a) * Real.sqrt (dot b b)) ≤ 1 :=
      (div_le_one hpos).mpr hle
    linarith

/-- Cosine distance of a vector with nonzero norm to itself is exactly 0
in the exact-arithmetic model. -/
theorem cosineDistance_self (q : Vec) (h : dot q q ≠ 0) : cosineDistance q q = 0 := by
  rw [cosineDistance]
  have hR : (0:ℝ) ≤ (dot q q : ℝ) := by exact_mod_cast dot_self_nonneg q
  rw [Real.mul_self_sqrt hR]
  rw [div_self (by exact_mod_cast h)]
  norm_num

/-- C5 (amended): round-trip. For every storage state, querying with a
vector equal to the embedding of stored row j (that embedding being
nonzero) and K at least the number of rows returns first a row at cosine
distance exactly 0 from the query (0 within floating-point tolerance in
the float implementation); the first row is row j itself whenever no
other stored embedding is at distance 0 from the query. With ties at
distance 0 (for example a duplicate embedding stored earlier) another
distance-0 row can come first, which is why the unqualified claim
fails. -/
theorem query_self_first (s : StorageState) (j : ℕ) (hj : j < s.length)
    (q : Vec) (hq : (s.get ⟨j, hj⟩).embedding = q) (hnz : dot q q ≠ 0)
    (k : ℕ) (hk : s.length ≤ k) :
    ∃ p0 rest, queryPipeline cosineDistance s q k = p0 :: rest
      ∧ p0.2 = 0 ∧ cosineDistance p0.1.embedding q = 0
      ∧ ((∀ i (hi : i < s.length), i ≠ j →
            cosineDistance (s.get ⟨i, hi⟩).embedding q ≠ 0) →
          p0.1 = s.get ⟨j, hj⟩) := by
  have hfull : queryPipeline cosineDistance s q k = rankedResults cosineDistance s q := by
    rw [queryPipeline]
    exact List.take_of_length_le (by rw [rankedResults_length]; exact hk)
  have hlen : (rankedResults cosineDistance s q).length = s.length :=
    rankedResults_length cosineDistance s q
  have hpos : 0 < s.length := Nat.lt_of_le_of_lt (Nat.zero_le j) hj
  obtain ⟨p0, rest, hcons⟩ :
      ∃ p0 rest, rankedResults cosineDistance s q = p0 :: rest := by
    cases hr : rankedResults cosineDistance s q with
    | nil => rw [hr] at hlen; simp at hlen; omega
    | cons a l => exact ⟨a, l, rfl⟩
  have hdq : cosineDistance q q = 0 := cosineDistance_self q hnz
  have hqmem : (s.get ⟨j, hj⟩, cosineDistance q q) ∈ distancePairs cosineDistance s q := by
    rw [distancePairs]
    exact List.mem_map.mpr ⟨s.get ⟨j, hj⟩, List.get_mem s j hj, by rw [hq]⟩
  have hqmem2 : (s.get ⟨j, hj⟩, cosineDistance q q) ∈ p0 :: rest := by
    rw [← hcons]
    exact ((rankedResults_perm cosineDistance s q).mem_iff).mpr hqmem
  have hsorted := rankedResults_sorted cosineDistance s q
  rw [hcons] at hsorted
  have hmin : p0.2 ≤ 0 := by
    rcases List.mem_cons.mp hqmem2 with heq | hmem
    · rw [← heq]
      simp [hdq]
    · have hrel := List.rel_of_sorted_cons hsorted _ hmem
      simpa [byDist, hdq] using hrel
  have hp0mem : p0 ∈ distancePairs cosineDistance s q := by
    have h1 : p0 ∈ rankedResults cosineDistance s q := by
      rw [hcons]
      exact List.mem_cons_self p0 rest
    exact ((rankedResults_perm cosineDistance s q).mem_iff).mp h1
  obtain ⟨r0, hr0, hpr⟩ := List.mem_map.mp hp0mem
  have hp1 : p0.1 = r0 := by rw [← hpr]
  have hp2 : p0.2 = cosineDistance r0.embedding q := by rw [← hpr]
  have hnonneg : 0 ≤ p0.2 := by
    rw [hp2]
    exact cosineDistance_nonneg r0.embedding q
  have hp20 : p0.2 = 0 := le_antisymm hmin hnonneg
  refine ⟨p0, rest, by rw [hfull, hcons], hp20, by rw [hp1, ← hp2]; exact hp20, ?_⟩
  intro huniq
  obtain ⟨⟨i, hi⟩, hgi⟩ := List.mem_iff_get.mp hr0
  by_cases hij : i = j
  · subst hij
    rw [hp1, ← hgi]
  · exfalso
    apply huniq i hi hij
    rw [hgi, ← hp2]
    exact hp20

/-- C5 witness: a single stored row with nonzero embedding, K = 1. -/
theorem query_self_first_witness :
    ∃ p0 rest, queryPipeline cosineDistance [⟨0, [1]⟩] [1] 1 = p0 :: rest
      ∧ p0.2 = 0 ∧ cosineDistance p0.1.embedding [1] = 0
      ∧ ((∀ i (hi : i < ([⟨0, [1]⟩] : StorageState).length), i ≠ 0 →
            cosineDistance ((([⟨0, [1]⟩] : StorageState).get ⟨i, hi⟩)).embedding [1] ≠ 0) →
          p0.1 = ([⟨0, [1]⟩] : StorageState).get ⟨0, by norm_num⟩) :=
  query_self_first [⟨0, [1]⟩] 0 (by norm_num) [1] rfl (by norm_num [dot]) 1 (by norm_num)

/-- C5 counterexample to the unqualified claim: two rows stored with
identical embeddings. Querying with the embedding of row 1 (so the query
vector equals a stored embedding and K covers the whole table) returns
row 0 first, not row 1: stability of the ranking keeps the earlier row
in front on a distance tie. -/
theorem query_self_first_counterexample :
    (([⟨0, [1]⟩, ⟨1, [1]⟩] : StorageState).get ⟨1, by norm_num⟩).embedding = [1]
      ∧ queryPipeline cosineDistance [⟨0, [1]⟩, ⟨1, [1]⟩] [1] 2
          = [(⟨0, [1]⟩, (0:ℝ)), (⟨1, [1]⟩, (0:ℝ))]
      ∧ (⟨0, [1]⟩ : ImageSearchTest).image_id ≠ (⟨1, [1]⟩ : ImageSearchTest).image_id := by
  have hc1 : cosineDistance [1] [1] = 0 := cosineDistance_self [1] (by norm_num [dot])
  refine ⟨rfl, ?_, by norm_num⟩
  rw [queryPipeline, rankedResults, distancePairs]
  simp [hc1, List.insertionSort, List.orderedInsert, byDist]

/-- C4 witness: the boundary behavior at a concrete one-row store, with
K equal to minus 1 and K equal to 2. -/
theorem queryPipelineChecked_boundary_witness :
    queryPipelineChecked dot [⟨0, [1]⟩] [1] (-1) = Except.error QueryError.invalidK
      ∧ (queryPipelineChecked dot [⟨0, [1]⟩] [1] 2
            = Except.ok (rankedResults dot [⟨0, [1]⟩] [1])
          ∧ List.Perm ((rankedResults dot [⟨0, [1]⟩] [1]).map Prod.fst) [⟨0, [1]⟩]
          ∧ List.Sorted (byDist ℚ) (rankedResults dot [⟨0, [1]⟩] [1])) :=
  ⟨(queryPipelineChecked_boundary dot [⟨0, [1]⟩] [1]).1 (-1) (by norm_num),
    (queryPipelineChecked_boundary dot [⟨0, [1]⟩] [1]).2 2 (by norm_num)⟩
